import Mathlib

/-!
Verification of the filter/query translation engine and CRUD orchestration
layer of the `loopback-connector-ml` repository (`src/lib/ml.js`), against its
natural-language specification.

The file shallowly embeds the relevant JavaScript source.  JavaScript values
are modelled by the inductive type `JValue`; objects are association lists
whose keys are assumed unique (JavaScript objects cannot carry duplicate
keys), property reads/writes/deletes follow JavaScript semantics (`setEntry`
updates an existing key in place, preserving insertion order, and appends
otherwise).

`src/lib/ml.js` holds two implementations of the connector surface: the
primary promise-based one (namespace `ML1` below, lines 1-447) and the
execute-based one retained alongside it (namespace `ML2`, lines 448-1329).
The two copies of `buildWhere` (lines 203-260 and 859-918) differ only in the
name of the store locator field the identity field is rewritten to (`"id"`
versus `"_uri"`); they are embedded once, parameterized by that name (`loc`).
-/

/-- A JavaScript runtime value, as used by the connector: `undefined`, `null`,
booleans, numbers (integral values suffice for every claim), strings, arrays,
plain objects (association lists of own enumerable properties in insertion
order), `RegExp` objects (as built by `new RegExp(pattern, flags)`) and
`Date` objects. -/
inductive JValue where
  | undef
  | null
  | bool (b : Bool)
  | num (n : Int)
  | str (s : String)
  | arr (elems : List JValue)
  | obj (fields : List (String × JValue))
  | regex (pat : JValue) (flags : JValue)
  | date (t : Int)
deriving Repr

/-- The numeric value of a decimal digit character, if it is one. -/
def charDigit (c : Char) : Option Nat :=
  if '0' ≤ c ∧ c ≤ '9' then some (c.toNat - '0'.toNat) else none

/-- Helper for `jsArrayIndex`: accumulate decimal digits. -/
def jsArrayIndexGo : List Char → Nat → Option Nat
  | [], acc => some acc
  | c :: cs, acc =>
      match charDigit c with
      | some d => jsArrayIndexGo cs (acc * 10 + d)
      | none => none

/-- Interpret a property key as an array index (JavaScript array elements
answer to their decimal index keys). -/
def jsArrayIndex (k : String) : Option Nat :=
  match k.data with
  | [] => none
  | cs => jsArrayIndexGo cs 0

namespace JValue

/-- JavaScript truthiness of a value (`if (v)`). -/
def truthy : JValue → Bool
  | .undef => false
  | .null => false
  | .bool b => b
  | .num n => n != 0
  | .str s => s != ""
  | _ => true

/-- The check `v && v.constructor.name === 'Object'` used by `buildWhere`
(lines 227 and 883): true exactly for plain objects (arrays, dates and
regular expressions have other constructor names; `null`/`undefined` are
falsy and short-circuit). -/
def isPlainObj : JValue → Bool
  | .obj _ => true
  | _ => false

/-- The JavaScript `typeof v === 'object'` test (`typeof null` is
`'object'`; arrays, plain objects, dates and RegExp objects are objects). -/
def typeofObject : JValue → Bool
  | .null => true
  | .arr _ => true
  | .obj _ => true
  | .regex _ _ => true
  | .date _ => true
  | _ => false

/-- `Object.keys(v)`: own enumerable property names.  For arrays these are
the element indices; dates and RegExp objects have no own enumerable
properties. -/
def jsKeys : JValue → List String
  | .obj kvs => kvs.map (·.1)
  | .arr xs => (List.range xs.length).map toString
  | _ => []

/-- Property read `v[k]`; an absent property reads as `undefined`.  On
arrays a numeric key reads the element. -/
def getField : JValue → String → JValue
  | .obj kvs, k => ((kvs.find? (fun kv => kv.1 == k)).map (·.2)).getD .undef
  | .arr xs, k =>
      match jsArrayIndex k with
      | some i => xs.getD i .undef
      | none => .undef
  | _, _ => .undef

end JValue

/-- Property write on an association list (`o[k] = v`): updates an existing
key in place (JavaScript keeps the original insertion position), otherwise
appends the new property. -/
def setEntry (kvs : List (String × JValue)) (k : String) (v : JValue) :
    List (String × JValue) :=
  match kvs with
  | [] => [(k, v)]
  | (k0, v0) :: rest =>
      if k0 == k then (k0, v) :: rest else (k0, v0) :: setEntry rest k v

/-- Property delete on an association list (`delete o[k]`). -/
def delEntry (kvs : List (String × JValue)) (k : String) :
    List (String × JValue) :=
  kvs.filter (fun kv => kv.1 != k)

/-- `o[k] = v` on an object value (no-op on non-objects, which is the only
use the embedded code makes of it). -/
def setField : JValue → String → JValue → JValue
  | .obj kvs, k, v => .obj (setEntry kvs k v)
  | x, _, _ => x

/-- `delete o[k]` on an object value. -/
def delField : JValue → String → JValue
  | .obj kvs, k => .obj (delEntry kvs k)
  | x, _ => x

namespace ML

open JValue

/-- The reserved logical-combinator test of line 215 / 871:
`k === 'and' || k === 'or' || k === 'nor'` (performed on the key after the
identity-field rewrite). -/
def isCombinator (k : String) : Bool :=
  k == "and" || k == "or" || k == "nor"

/-- Lines 225-231 / 881-887 of `src/lib/ml.js`: the operator-tag extraction.
`var spec = false;` stays `false` unless the condition is truthy with
constructor name `'Object'`; then `spec = Object.keys(cond)[0]`.  The guard
`if (spec)` that follows is a truthiness test, so an `undefined` first key
(empty object) or an empty-string first key leaves the literal branch in
charge; `clauseSpec` returns `some tag` exactly when the operator branch is
taken. -/
def clauseSpec (cond : JValue) : Option String :=
  if cond.truthy && cond.isPlainObj then
    match cond.jsKeys with
    | s :: _ => if s == "" then none else some s
    | [] => none
  else none

/-- The reassignment `cond = cond[spec]` (line 230 / 886), performed whenever
the constructor check passed; with an empty object `spec` is `undefined` and
the lookup key coerces to the string `"undefined"`. -/
def clauseOperand (cond : JValue) : JValue :=
  if cond.truthy && cond.isPlainObj then
    match cond.jsKeys with
    | s :: _ => cond.getField s
    | [] => cond.getField "undefined"
  else cond

/-- Lines 251-257 / 907-915: the literal branch.  A `null` condition becomes
the native null-type test; any other value is stored unchanged. -/
def litStep (query : List (String × JValue)) (k : String) (cond : JValue) :
    List (String × JValue) :=
  match cond with
  | .null => setEntry query k (.obj [("$type", .num 10)])
  | c => setEntry query k c

/-- Lines 233-250 / 889-906: the operator branch, dispatching on the first
key of the clause.  The `inq` operand map is the identity (the source maps
`x` to `x` in both arms); a non-array `inq` operand would throw in
JavaScript and is passed through here. -/
def opStep (query : List (String × JValue)) (k : String) (s : String)
    (cond opts : JValue) : List (String × JValue) :=
  if s == "between" then
    setEntry query k (.obj [("$gte", cond.getField "0"), ("$lte", cond.getField "1")])
  else if s == "inq" then
    setEntry query k (.obj [("$in", match cond with
      | .arr xs => .arr (xs.map (fun x => x))
      | c => c)])
  else if s == "like" then
    setEntry query k (.obj [("$regex", .regex cond opts)])
  else if s == "nlike" then
    setEntry query k (.obj [("$not", .regex cond opts)])
  else if s == "neq" then
    setEntry query k (.obj [("$ne", cond)])
  else
    setEntry query k (.obj [("$" ++ s, cond)])

/-- One non-combinator iteration of the `Object.keys(where).forEach` body
(lines 225-257 / 881-915), for an already rewritten key `k`. -/
def nonCombStep (query : List (String × JValue)) (k : String) (cond : JValue) :
    List (String × JValue) :=
  match clauseSpec cond with
  | some s => opStep query k s (clauseOperand cond) (cond.getField "options")
  | none => litStep query k (clauseOperand cond)

mutual

/-- `MarkLogic.prototype.buildWhere` (lines 203-260 / 859-918), with the
caller's `where` object threaded through explicitly: the first component of
the result is the input object as it stands after the call (the source only
ever writes to the fresh `query`, and this embedding records every property
write with its target so that the non-mutation guarantee is a provable
statement rather than an artifact of value semantics), the second component
is the freshly built native query.  `loc` is the store locator field name
(`"id"` in the first copy, `"_uri"` in the second), `idName` the model's
identity field.  A `null` or non-`typeof`-`object` input short-circuits to
an empty query (lines 206-208 / 862-864); arrays pass the guard and are
iterated over their index keys; dates and RegExp objects pass the guard but
have no own enumerable keys. -/
def buildWhereM (loc idName : String) (wh : JValue) : JValue × JValue :=
  match wh with
  | .obj kvs =>
      let r := bwEntries loc idName [] kvs
      (.obj r.1, .obj r.2)
  | .arr xs =>
      let r := bwArr loc idName [] 0 xs
      (.arr r.1, .obj r.2)
  | w => (w, .obj [])

/-- The `forEach` loop over an object's entries, threading the `query`
accumulator; returns the entries as they stand after the loop together with
the final query. -/
def bwEntries (loc idName : String) (query : List (String × JValue))
    (kvs : List (String × JValue)) :
    List (String × JValue) × List (String × JValue) :=
  match kvs with
  | [] => ([], query)
  | (k, cond) :: rest =>
      let s := bwStep loc idName query k cond
      let r := bwEntries loc idName s.2 rest
      ((k, s.1) :: r.1, r.2)

/-- The same loop when the guard admitted an array (`Object.keys` of an
array lists its indices). -/
def bwArr (loc idName : String) (query : List (String × JValue)) (i : Nat)
    (xs : List JValue) : List JValue × List (String × JValue) :=
  match xs with
  | [] => ([], query)
  | x :: rest =>
      let s := bwStep loc idName query (toString i) x
      let r := bwArr loc idName s.2 (i + 1) rest
      (s.1 :: r.1, r.2)

/-- One iteration of the loop body (lines 210-258 / 866-916): rewrite the
identity field to the locator (line 212-214 / 868-870, a rebinding of the
local `k`, not a write to `where`), then either the combinator branch
(lines 215-224 / 871-880: map the recursive translation over an array
value, store it under the `$`-prefixed token, delete the unprefixed key)
or the operator/literal dispatch.  Returns the condition value as it
stands after the iteration and the updated query. -/
def bwStep (loc idName : String) (query : List (String × JValue))
    (k : String) (cond : JValue) : JValue × List (String × JValue) :=
  let k2 := if k == idName then loc else k
  if isCombinator k2 then
    match cond with
    | .arr xs =>
        let r := bwList loc idName xs
        (.arr r.1, delEntry (setEntry query ("$" ++ k2) (.arr r.2)) k2)
    | c => (c, delEntry (setEntry query ("$" ++ k2) c) k2)
  else
    (cond, nonCombStep query k2 cond)

/-- `cond.map(function (c) { return self.buildWhere(model, c); })`
(lines 217-219 / 873-875): the nested expressions after the recursive calls
and the list of translated subqueries. -/
def bwList (loc idName : String) (xs : List JValue) :
    List JValue × List JValue :=
  match xs with
  | [] => ([], [])
  | x :: rest =>
      let r := buildWhereM loc idName x
      let rs := bwList loc idName rest
      (r.1 :: rs.1, r.2 :: rs.2)

end

/-- The value `buildWhere` returns to its caller: the freshly built native
query. -/
def buildWhere (loc idName : String) (wh : JValue) : JValue :=
  (buildWhereM loc idName wh).2

end ML

/-! ## The ordering clause of filtered reads

`MarkLogic.prototype.all` (second copy, lines 950-992 of `src/lib/ml.js`)
builds the sort specification: when `filter.order` is falsy it is defaulted
to the model's identity-field list when that is non-empty (lines 955-960);
a truthy order is split on `','` when it is a string, and each entry is
matched against the suffix regular expression `/\s+(A|DE)SC$/`
(case-sensitive: only uppercase `ASC`/`DESC` match), the suffix is removed,
the remainder trimmed, the identity field rewritten to `_uri`, and the
direction taken from the match (lines 961-978); with no order at all the
sort falls back to `{_uri: 1}` (lines 979-982). -/

namespace ML

/-- The whitespace class `\s` of the suffix regular expression (restricted
to the four common whitespace characters, which suffices for every claim). -/
def isWsChar (c : Char) : Bool :=
  c = ' ' || c = '\t' || c = '\n' || c = '\r'

/-- `String.prototype.trim` on a character list. -/
def jsTrimChars (cs : List Char) : List Char :=
  ((cs.dropWhile isWsChar).reverse.dropWhile isWsChar).reverse

/-- `String.prototype.trim`. -/
def jsTrim (s : String) : String :=
  ⟨jsTrimChars s.data⟩

/-- The combined effect of `keys[index].match(/\s+(A|DE)SC$/)` and
`key.replace(/\s+(A|DE)SC$/, '').trim()` (lines 967-969): when the entry
ends in `ASC` or `DESC` preceded by at least one whitespace character, the
stripped and trimmed key together with the descending flag (`m[1] === 'DE'`);
otherwise `none` (the untouched entry is then only trimmed).  The pattern is
case-sensitive — a lowercase suffix does not match. -/
def stripOrderSuffix (s : String) : Option (String × Bool) :=
  match s.data.reverse with
  | 'C' :: 'S' :: 'E' :: 'D' :: c :: rest =>
      if isWsChar c then some (⟨jsTrimChars (c :: rest).reverse⟩, true) else none
  | 'C' :: 'S' :: 'A' :: c :: rest =>
      if isWsChar c then some (⟨jsTrimChars (c :: rest).reverse⟩, false) else none
  | _ => none

/-- Helper for `jsSplitComma`. -/
def jsSplitCommaGo : List Char → List Char → List String
  | [], cur => [⟨cur.reverse⟩]
  | c :: rest, cur =>
      if c = ',' then ⟨cur.reverse⟩ :: jsSplitCommaGo rest []
      else jsSplitCommaGo rest (c :: cur)

/-- `keys.split(',')` (line 964). -/
def jsSplitComma (s : String) : List String :=
  jsSplitCommaGo s.data []

/-- The entry list the loop runs over: a string order is split on commas, an
array order (such as the defaulted identity-field list) is taken as is
(non-string array entries would throw in JavaScript when `.match` is called
on them and are omitted here). -/
def orderKeys : JValue → List String
  | .str s => jsSplitComma s
  | .arr xs => xs.filterMap (fun v => match v with | .str s => some s | _ => none)
  | _ => []

/-- `order[key] = ±1` with JavaScript object semantics (an existing key
keeps its insertion position). -/
def setIntEntry (kvs : List (String × Int)) (k : String) (v : Int) :
    List (String × Int) :=
  match kvs with
  | [] => [(k, v)]
  | (k0, v0) :: rest =>
      if k0 == k then (k0, v) :: rest else (k0, v0) :: setIntEntry rest k v

/-- One iteration of the order loop (lines 966-978): strip the suffix, trim,
rewrite the identity field to `_uri`, direction `-1` only on a (matched,
uppercase) `DESC`. -/
def orderEntry (idName : String) (acc : List (String × Int)) (s : String) :
    List (String × Int) :=
  match stripOrderSuffix s with
  | some kv =>
      let key := if kv.1 == idName then "_uri" else kv.1
      setIntEntry acc key (if kv.2 then -1 else 1)
  | none =>
      let key0 := jsTrim s
      let key := if key0 == idName then "_uri" else key0
      setIntEntry acc key 1

/-- Lines 954-982 of `src/lib/ml.js`: the full sort-specification builder.
`ordv` is `filter.order` (`JValue.undef` when absent), `idNames` the model's
identity-field list used as the default. -/
def buildOrder (idName : String) (ordv : JValue) (idNames : List String) :
    List (String × Int) :=
  let ordv2 :=
    if ordv.truthy then ordv
    else if idNames.isEmpty then ordv else JValue.arr (idNames.map JValue.str)
  if ordv2.truthy then (orderKeys ordv2).foldl (orderEntry idName) []
  else [("_uri", 1)]

end ML

/-! ## CRUD operations -/

/-- The settled state of a store-call promise (`....result().then(...)`):
resolved with a response, or rejected with an error. -/
inductive PromiseOutcome where
  | resolved (response : JValue)
  | rejected (err : JValue)

/-- One invocation of an operation's completion callback, with the error
and result arguments it received. -/
structure CbCall where
  err : JValue
  res : JValue

/-- `unescape(uri)`: modelled as the identity — percent-decoding is
irrelevant to every claim (no theorem inspects the decoded locator). -/
def jsUnescape (v : JValue) : JValue := v

/-- `xs.length` as read by the connector (always applied to arrays). -/
def jsLength : JValue → Int
  | .arr xs => xs.length
  | _ => 0

namespace ML1

/-- The outcome of a promise-based write: the document descriptor passed to
`db.documents.write`, the caller's data object after the call, and the
callback invocations made. -/
structure WriteEffect where
  req : JValue
  dataAfter : JValue
  calls : List CbCall

/-- `MarkLogic.prototype.save` (lines 156-173): writes the full document
`{uri: data.id, content: data, contentType: 'application/json'}`; on a
resolved write it stores the acknowledged uri into `data.id` and invokes
`callback(null, data.id)`; the promise chain has no rejection handler, so a
rejected write invokes the callback zero times. -/
def save (model : String) (data : JValue) (outcome : PromiseOutcome) :
    WriteEffect :=
  let req := JValue.obj [("uri", data.getField "id"), ("content", data),
    ("contentType", .str "application/json")]
  match outcome with
  | .resolved response =>
      let data2 := setField data "id"
        (((response.getField "documents").getField "0").getField "uri")
      ⟨req, data2, [⟨JValue.null, data2.getField "id"⟩]⟩
  | .rejected _ => ⟨req, data, []⟩

/-- `MarkLogic.prototype.create` (lines 129-148): builds the extension/
directory/collections descriptor and writes it; on a resolved write it
stores the assigned uri into `data.id` and invokes `callback(null, data.id)`;
the promise chain has no rejection handler, so a rejected write invokes the
callback zero times. -/
def create (model : String) (data : JValue) (outcome : PromiseOutcome) :
    WriteEffect :=
  let req := JValue.obj [("extension", .str "json"),
    ("directory", .str (model ++ "/")), ("content", data),
    ("contentType", .str "application/json"),
    ("collections", .arr [.str model])]
  match outcome with
  | .resolved response =>
      let data2 := setField data "id"
        (((response.getField "documents").getField "0").getField "uri")
      ⟨req, data2, [⟨JValue.null, data2.getField "id"⟩]⟩
  | .rejected _ => ⟨req, data, []⟩

/-- `MarkLogic.prototype.destroyAll` (lines 320-349): translates the filter
with the primary `buildWhere` (locator key `"id"`), and **only** when the
translated query carries a truthy `id` entry issues a locator-scoped
`documents.remove` and reports `{count: response.uris.length}` on a
resolved promise.  Every other path — a filter that does not single out a
locator, or a rejected remove (no rejection handler) — returns without
invoking the callback at all; the filter-scoped bulk branch exists only as
commented-out code (lines 337-348).  Returns the remove request issued (if
any) and the callback invocations. -/
def destroyAll (model idName : String) (wh : JValue)
    (outcome : PromiseOutcome) : Option JValue × List CbCall :=
  let w := ML.buildWhere "id" idName wh
  if w.truthy && (w.getField "id").truthy then
    match outcome with
    | .resolved response =>
        (some (jsUnescape (w.getField "id")),
         [⟨JValue.null, .obj [("count", .num (jsLength (response.getField "uris")))]⟩])
    | .rejected _ => (some (jsUnescape (w.getField "id")), [])
  else (none, [])

/-- `MarkLogic.prototype.updateAttributes` (lines 383-394): sets
`data.id = uri` and delegates to the full-document `save`; `documents.write`
creates the document when none exists at the locator. -/
def updateAttributes (model idName : String) (uri : String) (data : JValue)
    (outcome : PromiseOutcome) : WriteEffect :=
  save model (setField data "id" (.str uri)) outcome

/-- `MarkLogic.prototype.updateAll` (lines 403-415): runs `self.all` on the
filter (that store interaction is abstracted here by `allResponse`, the
record list `all` reports — the primary `all` always completes with
`(null, results)`), and only when the first returned record is truthy sets
`data.id` to its id and delegates to `save`; with no match **nothing**
happens: no write is issued and the callback `cb` is never invoked. -/
def updateAll (model idName : String) (wh data : JValue)
    (allResponse : List JValue) (saveOutcome : PromiseOutcome) :
    Option WriteEffect × List CbCall :=
  let first := allResponse.headD JValue.undef
  if first.truthy then
    let e := save model (setField data "id" (first.getField "id")) saveOutcome
    (some e, e.calls)
  else (none, [])

end ML1

namespace ML2

/-- The outcome handed to an `execute`-based operation's callback:
`(err, result)`. -/
inductive ExecOutcome where
  | ok (result : JValue)
  | err (e : JValue)

/-- `parseUpdateData` (lines 729-762): with the `allowExtendedOperators`
setting enabled, each member of the fixed operator allow-list whose value
in the payload is **truthy** is copied to the sanitized object, counting
uses; if no operator was used the whole payload is wrapped as
`{$set: data}`.  With the flag disabled the payload is always wrapped. -/
def acceptedOperators : List String :=
  ["$currentDate", "$inc", "$max", "$min", "$mul", "$rename", "$setOnInsert",
   "$set", "$unset",
   "$addToSet", "$pop", "$pullAll", "$pull", "$pushAll", "$push",
   "$bit"]

/-- One iteration of the allow-list scan (lines 746-751):
`if (data[acceptedOperators[i]]) { parsedData[...] = ...; usedOperators++; }`. -/
def parseStep (data : JValue) (acc : List (String × JValue) × Nat)
    (op : String) : List (String × JValue) × Nat :=
  if (data.getField op).truthy then
    (setEntry acc.1 op (data.getField op), acc.2 + 1)
  else acc

/-- `MarkLogic.prototype.parseUpdateData` (lines 729-762). -/
def parseUpdateData (allowExtendedOperators : Bool) (data : JValue) : JValue :=
  if allowExtendedOperators then
    let r := acceptedOperators.foldl (parseStep data) ([], 0)
    if r.2 == 0 then .obj (setEntry r.1 "$set" data) else .obj r.1
  else .obj (setEntry [] "$set" data)

/-- `Connector.prototype.setIdValue`, inherited from the external
`loopback-connector` base (an external collaborator, spec section 4.1):
writes the locator value into the record's identity field; modelled as a
no-op on a missing (non-object) record. -/
def extSetIdValue (idName : String) (record : JValue) (v : JValue) : JValue :=
  match record with
  | .obj kvs => .obj (setEntry kvs idName v)
  | r => r

/-- The identifiers declared in the scope of `updateOrCreate`
(lines 771-811): its parameters and `var`-declared locals.  The identifier
`uri` used at lines 785, 790, 795 and 798 is **not** among them. -/
def updateOrCreateScope : List String :=
  ["model", "data", "options", "callback", "self", "id", "idName"]

/-- Reading an identifier in a JavaScript scope: a declared name evaluates
to itself, an undeclared one throws a `ReferenceError`. -/
def jsResolve (scope : List String) (x : String) : Except String String :=
  if scope.contains x then .ok x
  else .error ("ReferenceError: " ++ x ++ " is not defined")

/-- `MarkLogic.prototype.updateOrCreate` (lines 771-811): reads the id
value, deletes the identity field from the payload, sanitizes it — and then
builds the `findAndModify` selector `{_uri: uri}` from the identifier `uri`,
which is not declared anywhere in the function (the id was stored in `id`,
line 777); evaluating it throws a `ReferenceError` before any store call is
issued.  On the (unreachable) success path the full request — selector,
sort, sanitized update and the `{upsert: true, new: true}` options — would
be returned. -/
def updateOrCreate (allowExtendedOperators : Bool) (model idName : String)
    (data : JValue) : Except String JValue :=
  let id := data.getField idName
  let data1 := delField data idName
  let data2 := parseUpdateData allowExtendedOperators data1
  match jsResolve updateOrCreateScope "uri" with
  | .ok u =>
      .ok (.obj [("query", .obj [("_uri", .str u)]),
        ("sort", .arr [.arr [.str "_uri", .str "asc"]]),
        ("update", data2),
        ("options", .obj [("upsert", .bool true), ("new", .bool true)])])
  | .error e => .error e

/-- The effect of the `execute`-based `updateAttributes`: the
`findAndModify` request (selector, sort, sanitized update, options) and the
callback invocations. -/
structure FamEffect where
  query : JValue
  sort : JValue
  update : JValue
  opts : JValue
  calls : List CbCall

/-- `MarkLogic.prototype.updateAttributes` (second copy, lines 1076-1102):
sanitizes the payload, issues `findAndModify` on `{_uri: uri}` with empty
options (no upsert), and in the callback: `object = result && result.value`;
when there is no error and no object the error becomes
`'No <model> found for uri <uri>'`; `setIdValue` writes the locator into a
found record (no-op on a missing one); `_uri` is deleted from a found
record unless the identity field *is* `_uri`; finally `cb(err, object)`. -/
def updateAttributes (allowExtendedOperators : Bool) (model idName : String)
    (uri : String) (data : JValue) (outcome : ExecOutcome) : FamEffect :=
  let data2 := parseUpdateData allowExtendedOperators data
  let query := JValue.obj [("_uri", .str uri)]
  let sort := JValue.arr [.arr [.str "_uri", .str "asc"]]
  let opts := JValue.obj []
  match outcome with
  | .err e => ⟨query, sort, data2, opts, [⟨e, JValue.undef⟩]⟩
  | .ok result =>
      let object := if result.truthy then result.getField "value" else result
      if object.truthy then
        let object2 := extSetIdValue idName object (.str uri)
        let object3 := if idName == "_uri" then object2 else delField object2 "_uri"
        ⟨query, sort, data2, opts, [⟨JValue.null, object3⟩]⟩
      else
        let errv := JValue.str ("No " ++ model ++ " found for uri " ++ uri)
        ⟨query, sort, data2, opts, [⟨errv, extSetIdValue idName object (.str uri)⟩]⟩

/-- The effect of the `execute`-based bulk `updateAll`: the translated
criteria, sanitized update, options and callback invocations. -/
structure BulkUpdateEffect where
  criteria : JValue
  update : JValue
  opts : JValue
  calls : List CbCall

/-- `MarkLogic.prototype.updateAll` (second copy, lines 1111-1136):
translates the filter (locator key `_uri`), deletes the identity field from
the payload, sanitizes it, and issues a multi-document update with
`{multi: true, upsert: false}`; a store error is passed through as
`cb(err)`, otherwise `cb(null, {count: info.result ? info.result.n :
undefined})`. -/
def updateAll (allowExtendedOperators : Bool) (model idName : String)
    (wh data : JValue) (outcome : ExecOutcome) : BulkUpdateEffect :=
  let w := ML.buildWhere "_uri" idName wh
  let data1 := delField data idName
  let data2 := parseUpdateData allowExtendedOperators data1
  let opts := JValue.obj [("multi", .bool true), ("upsert", .bool false)]
  match outcome with
  | .err e => ⟨w, data2, opts, [⟨e, JValue.undef⟩]⟩
  | .ok info =>
      let affected := if (info.getField "result").truthy then
          (info.getField "result").getField "n"
        else JValue.undef
      ⟨w, data2, opts, [⟨JValue.null, .obj [("count", affected)]⟩]⟩

end ML2

/-! ## Claims about the filter translator -/

/-- C3: for every field name `k` (not a reserved combinator) and operands
`lo`, `hi`, translating `k: {between: [lo, hi]}` yields a native entry for
`k` — rewritten to the locator field `loc` when `k` is the identity field —
equal to an inclusive range bound `{$gte: lo, $lte: hi}`
(lines 233-234 / 889-890 of `src/lib/ml.js`). -/
theorem C3_between_inclusive_range (loc idName k : String) (lo hi : JValue)
    (hk : ML.isCombinator (if k == idName then loc else k) = false) :
    ML.buildWhere loc idName (.obj [(k, .obj [("between", .arr [lo, hi])])])
      = .obj [((if k == idName then loc else k),
               .obj [("$gte", lo), ("$lte", hi)])] := by
  simp only [beq_iff_eq] at hk
  simp [ML.buildWhere, ML.buildWhereM, ML.bwEntries, ML.bwStep, hk, ML.nonCombStep,
    ML.clauseSpec, ML.clauseOperand, ML.opStep, JValue.truthy, JValue.isPlainObj,
    JValue.jsKeys, JValue.getField, setEntry, jsArrayIndex, jsArrayIndexGo, charDigit]

/-- Witness for C3, the scenario from the specification:
`{where: {age: {between: [18, 30]}}}` translates to
`{age: {$gte: 18, $lte: 30}}`. -/
theorem C3_between_inclusive_range_witness :
    ML.isCombinator (if "age" == "id" then "_uri" else "age") = false ∧
    ML.buildWhere "_uri" "id"
        (.obj [("age", .obj [("between", .arr [JValue.num 18, JValue.num 30])])])
      = .obj [("age", .obj [("$gte", JValue.num 18), ("$lte", JValue.num 30)])] :=
  ⟨by decide, C3_between_inclusive_range "_uri" "id" "age" (JValue.num 18)
      (JValue.num 30) (by decide)⟩

/-- C9: a `where` filter that is not a structured mapping — `null`, or any
value whose `typeof` is not `'object'` — degrades to the empty native query
(the guard at lines 206-208 / 862-864), so a read behaves as a match-all
read rather than raising. -/
theorem C9_malformed_filter_degrades (loc idName : String) (wh : JValue)
    (h : wh = JValue.null ∨ wh.typeofObject = false) :
    ML.buildWhere loc idName wh = .obj [] := by
  rcases h with h | h
  · subst h
    simp [ML.buildWhere, ML.buildWhereM]
  · cases wh <;> simp_all [ML.buildWhere, ML.buildWhereM, JValue.typeofObject]

/-- Witness for C9: a plain string is not a mapping and yields the empty
query. -/
theorem C9_malformed_filter_degrades_witness :
    (JValue.str "oops" = JValue.null ∨ (JValue.str "oops").typeofObject = false) ∧
    ML.buildWhere "_uri" "id" (JValue.str "oops") = .obj [] :=
  ⟨Or.inr rfl, C9_malformed_filter_degrades "_uri" "id" (JValue.str "oops") (Or.inr rfl)⟩

/-- C10: in `buildWhere`, a condition value is dispatched through the
operator branch only when it is a truthy value whose constructor name is
exactly `'Object'` (a plain object, line 227 / 883); `null` becomes the
native null-type test `{$type: 10}`; every other non-null value — arrays,
dates, regular expressions, primitives — is emitted unchanged as a literal
equality on its (rewritten) field. -/
theorem C10_operator_clause_dispatch (loc idName k : String) (cond : JValue)
    (hk : ML.isCombinator (if k == idName then loc else k) = false) :
    (cond = JValue.null →
      ML.buildWhere loc idName (.obj [(k, cond)])
        = .obj [((if k == idName then loc else k), .obj [("$type", JValue.num 10)])]) ∧
    (cond ≠ JValue.null → cond.isPlainObj = false →
      ML.buildWhere loc idName (.obj [(k, cond)])
        = .obj [((if k == idName then loc else k), cond)]) ∧
    (∀ c : JValue, ML.clauseSpec c ≠ none → c.isPlainObj = true) := by
  simp only [beq_iff_eq] at hk
  refine ⟨?_, ?_, ?_⟩
  · intro h
    subst h
    simp [ML.buildWhere, ML.buildWhereM, ML.bwEntries, ML.bwStep, hk, ML.nonCombStep,
      ML.clauseSpec, ML.clauseOperand, ML.litStep, JValue.truthy, JValue.isPlainObj,
      setEntry]
  · intro h1 h2
    cases cond <;>
      simp_all [ML.buildWhere, ML.buildWhereM, ML.bwEntries, ML.bwStep, hk,
        ML.nonCombStep, ML.clauseSpec, ML.clauseOperand, ML.litStep,
        JValue.truthy, JValue.isPlainObj, setEntry]
  · intro c hc
    cases hcp : c.isPlainObj
    · simp [ML.clauseSpec, hcp] at hc
    · rfl

/-- Witness for C10: an array condition (constructor name `'Array'`) is not
an operator clause and is emitted verbatim as a literal equality. -/
theorem C10_operator_clause_dispatch_witness :
    ML.isCombinator (if "tags" == "id" then "_uri" else "tags") = false ∧
    ML.buildWhere "_uri" "id" (.obj [("tags", JValue.arr [JValue.str "a"])])
      = .obj [("tags", JValue.arr [JValue.str "a"])] :=
  ⟨by decide,
    (C10_operator_clause_dispatch "_uri" "id" "tags" (JValue.arr [JValue.str "a"])
        (by decide)).2.1
      (fun h => JValue.noConfusion h) rfl⟩

/-- Size-bounded simultaneous induction over the mutual translation
functions: every one of them returns its input expression (first component)
unchanged — the loop writes only to the fresh `query`. -/

theorem ML.bw_preserves_input (n : Nat) :
    (∀ (loc idName : String) (wh : JValue), sizeOf wh ≤ n →
        (ML.buildWhereM loc idName wh).1 = wh) ∧
    (∀ (loc idName : String) (query kvs : List (String × JValue)), sizeOf kvs ≤ n →
        (ML.bwEntries loc idName query kvs).1 = kvs) ∧
    (∀ (loc idName : String) (query : List (String × JValue)) (i : Nat)
        (xs : List JValue), sizeOf xs ≤ n →
        (ML.bwArr loc idName query i xs).1 = xs) ∧
    (∀ (loc idName : String) (query : List (String × JValue)) (k : String)
        (cond : JValue), sizeOf cond ≤ n →
        (ML.bwStep loc idName query k cond).1 = cond) ∧
    (∀ (loc idName : String) (xs : List JValue), sizeOf xs ≤ n →
        (ML.bwList loc idName xs).1 = xs) := by
  induction n using Nat.strong_induction_on with
  | _ n ih =>
    refine ⟨?_, ?_, ?_, ?_, ?_⟩
    · intro loc idName wh hw
      cases wh with
      | obj kvs =>
          have hs : sizeOf kvs < n := by simp at hw; omega
          simp [ML.buildWhereM]
          exact (ih _ hs).2.1 loc idName [] kvs le_rfl
      | arr xs =>
          have hs : sizeOf xs < n := by simp at hw; omega
          simp [ML.buildWhereM]
          exact (ih _ hs).2.2.1 loc idName [] 0 xs le_rfl
      | _ => simp [ML.buildWhereM]
    · intro loc idName query kvs hw
      cases kvs with
      | nil => simp [ML.bwEntries]
      | cons hd rest =>
          obtain ⟨k, cond⟩ := hd
          have h1 : sizeOf cond < n := by simp at hw; omega
          have h2 : sizeOf rest < n := by simp at hw; omega
          simp [ML.bwEntries]
          exact ⟨(ih _ h1).2.2.2.1 loc idName query k cond le_rfl,
            (ih _ h2).2.1 loc idName _ rest le_rfl⟩
    · intro loc idName query i xs hw
      cases xs with
      | nil => simp [ML.bwArr]
      | cons x rest =>
          have h1 : sizeOf x < n := by simp at hw; omega
          have h2 : sizeOf rest < n := by simp at hw; omega
          simp [ML.bwArr]
          exact ⟨(ih _ h1).2.2.2.1 loc idName query (toString i) x le_rfl,
            (ih _ h2).2.2.1 loc idName _ (i + 1) rest le_rfl⟩
    · intro loc idName query k cond hw
      cases cond
      case arr xs =>
        have hs : sizeOf xs < n := by simp at hw; omega
        have hxs := (ih _ hs).2.2.2.2 loc idName xs le_rfl
        rw [ML.bwStep.eq_def]
        simp [apply_ite, hxs]
      all_goals rw [ML.bwStep.eq_def]
      all_goals simp [apply_ite]
    · intro loc idName xs hw
      cases xs with
      | nil => simp [ML.bwList]
      | cons x rest =>
          have h1 : sizeOf x < n := by simp at hw; omega
          have h2 : sizeOf rest < n := by simp at hw; omega
          simp [ML.bwList]
          exact ⟨(ih _ h1).1 loc idName x le_rfl,
            (ih _ h2).2.2.2.2 loc idName rest le_rfl⟩

/-- C5: `buildWhere` is pure and never mutates its input filter expression:
the input object (threaded explicitly through the embedding, which records
every property write with its target object) holds exactly the same keys
and values after translation as before — the identity-field rewrite is a
rebinding of the loop-local `k` (line 213 / 869) that lands only in the
freshly built output query.  `buildWhere` itself is the query component of
the threaded translation. -/
theorem C5_buildWhere_pure (loc idName : String) (wh : JValue) :
    (ML.buildWhereM loc idName wh).1 = wh ∧
    ML.buildWhere loc idName wh = (ML.buildWhereM loc idName wh).2 :=
  ⟨(ML.bw_preserves_input (sizeOf wh)).1 loc idName wh le_rfl, rfl⟩

/-! ## Claims about ordering -/
theorem ML.strMk_data (s : String) : String.mk s.data = s := by
  cases s; rfl

/-- Characters of a concatenation, stated on `String.mk`. -/
theorem ML.strMk_append (a b : String) : String.mk (a.data ++ b.data) = a ++ b := by
  cases a; cases b; rfl

/-- Characters of a concatenation. -/
theorem ML.strData_append (a b : String) : (a ++ b).data = a.data ++ b.data := by
  cases a; cases b; rfl

/-- Splitting a comma-free character list yields the single segment. -/
theorem ML.jsSplitCommaGo_no_comma (cs : List Char) (cur : List Char)
    (h : ∀ c ∈ cs, c ≠ ',') :
    ML.jsSplitCommaGo cs cur = [⟨cur.reverse ++ cs⟩] := by
  induction cs generalizing cur with
  | nil => simp [ML.jsSplitCommaGo]
  | cons c rest ih =>
      have hc : c ≠ ',' := h c (by simp)
      simp [ML.jsSplitCommaGo, hc]
      rw [ih (c :: cur) (fun x hx => h x (by simp [hx]))]
      simp

/-- `dropWhile` is the identity on an extension of a list it already leaves
unchanged (the list being non-empty). -/
theorem ML.dropWhile_eq_self_append (p : Char → Bool) (l1 l2 : List Char)
    (h : l1.dropWhile p = l1) (hne : l1 ≠ []) :
    (l1 ++ l2).dropWhile p = l1 ++ l2 := by
  cases l1 with
  | nil => exact absurd rfl hne
  | cons a t =>
      by_cases hpa : p a
      · exfalso
        have hlen : (t.dropWhile p).length ≤ t.length :=
          (List.dropWhile_suffix p).length_le
        rw [List.dropWhile_cons_of_pos hpa] at h
        have := congrArg List.length h
        simp at this
        omega
      · simp [List.dropWhile_cons, hpa]

/-- A comma-free order string is a single entry. -/
theorem ML.jsSplitComma_no_comma (f : String) (h : ∀ c ∈ f.data, c ≠ ',') :
    ML.jsSplitComma f = [f] := by
  unfold ML.jsSplitComma
  rw [ML.jsSplitCommaGo_no_comma _ _ h]
  simp only [List.reverse_nil, List.nil_append, ML.strMk_data]

/-- Trimming a trailing whitespace character off an already trimmed,
non-empty field name. -/
theorem ML.jsTrimChars_append_ws (f : String) (w : Char)
    (hw : ML.isWsChar w = true) (hf0 : f.data ≠ [])
    (hfA : f.data.dropWhile ML.isWsChar = f.data)
    (hfB : f.data.reverse.dropWhile ML.isWsChar = f.data.reverse) :
    ML.jsTrimChars (f.data ++ [w]) = f.data := by
  unfold ML.jsTrimChars
  rw [ML.dropWhile_eq_self_append _ _ _ hfA hf0, List.reverse_append]
  simp [List.dropWhile_cons, hw, hfB]

/-- An uppercase ` DESC` suffix is recognized and stripped. -/
theorem ML.stripOrderSuffix_upper_desc (f : String) (hf0 : f.data ≠ [])
    (hfA : f.data.dropWhile ML.isWsChar = f.data)
    (hfB : f.data.reverse.dropWhile ML.isWsChar = f.data.reverse) :
    ML.stripOrderSuffix (f ++ " DESC") = some (f, true) := by
  have hr : (f ++ " DESC").data.reverse
      = 'C' :: 'S' :: 'E' :: 'D' :: ' ' :: f.data.reverse := by
    rw [ML.strData_append, List.reverse_append]
    rfl
  unfold ML.stripOrderSuffix
  rw [hr]
  simp only [List.reverse_cons, List.reverse_reverse]
  rw [ML.jsTrimChars_append_ws f ' ' rfl hf0 hfA hfB, ML.strMk_data]
  rfl

/-- An uppercase ` ASC` suffix is recognized and stripped. -/
theorem ML.stripOrderSuffix_upper_asc (f : String) (hf0 : f.data ≠ [])
    (hfA : f.data.dropWhile ML.isWsChar = f.data)
    (hfB : f.data.reverse.dropWhile ML.isWsChar = f.data.reverse) :
    ML.stripOrderSuffix (f ++ " ASC") = some (f, false) := by
  have hr : (f ++ " ASC").data.reverse
      = 'C' :: 'S' :: 'A' :: ' ' :: f.data.reverse := by
    rw [ML.strData_append, List.reverse_append]
    rfl
  unfold ML.stripOrderSuffix
  rw [hr]
  simp only [List.reverse_cons, List.reverse_reverse]
  rw [ML.jsTrimChars_append_ws f ' ' rfl hf0 hfA hfB, ML.strMk_data]
  rfl

/-- A lowercase ` desc` suffix is not recognized by the case-sensitive
pattern. -/
theorem ML.stripOrderSuffix_lower_desc (f : String) :
    ML.stripOrderSuffix (f ++ " desc") = none := by
  have hr : (f ++ " desc").data.reverse
      = 'c' :: 's' :: 'e' :: 'd' :: ' ' :: f.data.reverse := by
    rw [ML.strData_append, List.reverse_append]
    rfl
  unfold ML.stripOrderSuffix
  rw [hr]
  rfl

/-- Trimming leaves an entry with an unrecognized lowercase suffix intact. -/
theorem ML.jsTrim_lower_desc (f : String) (hf0 : f.data ≠ [])
    (hfA : f.data.dropWhile ML.isWsChar = f.data) :
    ML.jsTrim (f ++ " desc") = f ++ " desc" := by
  unfold ML.jsTrim ML.jsTrimChars
  rw [ML.strData_append]
  rw [show (" desc" : String).data = [' ', 'd', 'e', 's', 'c'] from rfl]
  rw [ML.dropWhile_eq_self_append _ _ _ hfA hf0, List.reverse_append]
  rw [ML.dropWhile_eq_self_append ML.isWsChar ([' ', 'd', 'e', 's', 'c'].reverse)
      f.data.reverse (by decide) (by decide)]
  rw [List.reverse_append, List.reverse_reverse]
  rw [show (([' ', 'd', 'e', 's', 'c'] : List Char).reverse).reverse
      = (" desc" : String).data from rfl]
  exact ML.strMk_append f " desc"

/-- Appending a non-empty string yields a non-empty string. -/
theorem ML.strNeEmpty_of_append (f t : String) (ht : t.data ≠ []) :
    (f ++ t) ≠ "" := by
  intro h
  have hd := congrArg String.data h
  rw [ML.strData_append] at hd
  rcases List.append_eq_nil.mp hd with ⟨_, h2⟩
  exact ht h2

/-- Counterexample to C4 as stated: the suffix token is *not* recognized
case-insensitively.  `'name DESC'` yields descending order on `name`, but
`'name desc'` yields ascending order on the literal field name
`"name desc"` — the regular expression `/\s+(A|DE)SC$/` (line 967) has no
`i` flag. -/
theorem C4_order_suffix_case_cex :
    ML.buildOrder "id" (JValue.str "name DESC") ["id"] = [("name", -1)] ∧
    ML.buildOrder "id" (JValue.str "name desc") ["id"] = [("name desc", 1)] ∧
    ML.buildOrder "id" (JValue.str "name desc") ["id"] ≠ [("name", -1)] := by
  exact ⟨by decide, by decide, by decide⟩

/-- C4 (amended): when no ordering is requested the results are ordered by
the locator `_uri` ascending (both with an empty identity-name default and
with the usual defaulted identity-field list), and an entry's trailing
`ASC`/`DESC` suffix is recognized only in uppercase: `f ++ " DESC"` sorts
`f` descending, `f ++ " ASC"` sorts `f` ascending, while a lowercase
`f ++ " desc"` is not recognized as a suffix — the whole entry is treated
as a field name and sorted ascending. -/
theorem C4_order_default_and_suffix (idName f : String)
    (hf0 : f.data ≠ [])
    (hfA : f.data.dropWhile ML.isWsChar = f.data)
    (hfB : f.data.reverse.dropWhile ML.isWsChar = f.data.reverse)
    (hfC : ∀ c ∈ f.data, c ≠ ',')
    (hfI : f ≠ idName)
    (hfD : f ++ " desc" ≠ idName)
    (hidS : ML.stripOrderSuffix idName = none)
    (hidT : ML.jsTrim idName = idName) :
    ML.buildOrder idName JValue.undef [] = [("_uri", 1)] ∧
    ML.buildOrder idName JValue.undef [idName] = [("_uri", 1)] ∧
    ML.buildOrder idName (JValue.str (f ++ " DESC")) [idName] = [(f, -1)] ∧
    ML.buildOrder idName (JValue.str (f ++ " ASC")) [idName] = [(f, 1)] ∧
    ML.buildOrder idName (JValue.str (f ++ " desc")) [idName] = [(f ++ " desc", 1)] := by
  have hcomma : ∀ (t : String), t.data = [' ', 'D', 'E', 'S', 'C'] ∨
      t.data = [' ', 'A', 'S', 'C'] ∨ t.data = [' ', 'd', 'e', 's', 'c'] →
      ∀ c ∈ (f ++ t).data, c ≠ ',' := by
    intro t ht c hc
    rw [ML.strData_append] at hc
    rcases List.mem_append.mp hc with h | h
    · exact hfC c h
    · rcases ht with ht | ht | ht <;> rw [ht] at h <;> simp at h <;>
        rcases h with rfl | rfl | rfl | rfl | rfl <;> decide
  refine ⟨rfl, ?_, ?_, ?_, ?_⟩
  · simp [ML.buildOrder, JValue.truthy, ML.orderKeys, ML.orderEntry, hidS, hidT,
      ML.setIntEntry]
  · have hne : (f ++ " DESC") ≠ "" := ML.strNeEmpty_of_append f " DESC" (by decide)
    have hsplit := ML.jsSplitComma_no_comma (f ++ " DESC") (hcomma " DESC" (Or.inl rfl))
    have hstrip := ML.stripOrderSuffix_upper_desc f hf0 hfA hfB
    simp [ML.buildOrder, JValue.truthy, bne_iff_ne, hne, ML.orderKeys, hsplit,
      ML.orderEntry, hstrip, hfI, ML.setIntEntry]
  · have hne : (f ++ " ASC") ≠ "" := ML.strNeEmpty_of_append f " ASC" (by decide)
    have hsplit := ML.jsSplitComma_no_comma (f ++ " ASC")
      (hcomma " ASC" (Or.inr (Or.inl rfl)))
    have hstrip := ML.stripOrderSuffix_upper_asc f hf0 hfA hfB
    simp [ML.buildOrder, JValue.truthy, bne_iff_ne, hne, ML.orderKeys, hsplit,
      ML.orderEntry, hstrip, hfI, ML.setIntEntry]
  · have hne : (f ++ " desc") ≠ "" := ML.strNeEmpty_of_append f " desc" (by decide)
    have hsplit := ML.jsSplitComma_no_comma (f ++ " desc")
      (hcomma " desc" (Or.inr (Or.inr rfl)))
    have hstrip := ML.stripOrderSuffix_lower_desc f
    have htrim := ML.jsTrim_lower_desc f hf0 hfA
    simp [ML.buildOrder, JValue.truthy, bne_iff_ne, hne, ML.orderKeys, hsplit,
      ML.orderEntry, hstrip, htrim, hfD, ML.setIntEntry]

/-- Witness for the amended C4, at `idName := "id"`, `f := "name"`. -/
theorem C4_order_default_and_suffix_witness :
    ("name" : String).data ≠ [] ∧ ("name" : String) ≠ "id" ∧
    ML.buildOrder "id" JValue.undef ["id"] = [("_uri", 1)] ∧
    ML.buildOrder "id" (JValue.str "name DESC") ["id"] = [("name", -1)] ∧
    ML.buildOrder "id" (JValue.str "name desc") ["id"] = [("name desc", 1)] := by
  have h := C4_order_default_and_suffix "id" "name" (by decide) (by decide)
    (by decide) (by decide) (by decide) (by decide) (by decide) (by decide)
  exact ⟨by decide, by decide, h.2.1, h.2.2.1, h.2.2.2.2⟩

/-! ## Claims about the CRUD operations -/
theorem getField_setEntry (kvs : List (String × JValue)) (k : String) (v : JValue) :
    (JValue.obj (setEntry kvs k v)).getField k = v := by
  induction kvs with
  | nil => simp [setEntry, JValue.getField]
  | cons hd t ih =>
      obtain ⟨k0, v0⟩ := hd
      by_cases h : k0 == k
      · simp [setEntry, h, JValue.getField, List.find?]
      · simp only [JValue.getField, setEntry, h, Bool.false_eq_true, if_false,
          List.find?] at ih ⊢
        simpa [h] using ih

/-- Appending to an association list that does not carry the key. -/
theorem setEntry_not_mem (kvs : List (String × JValue)) (k : String) (v : JValue)
    (h : ∀ kv ∈ kvs, kv.1 ≠ k) : setEntry kvs k v = kvs ++ [(k, v)] := by
  induction kvs with
  | nil => rfl
  | cons hd t ih =>
      have hk : hd.1 ≠ k := h hd (by simp)
      obtain ⟨k0, v0⟩ := hd
      simp only [setEntry, beq_iff_eq]
      rw [if_neg hk]
      rw [ih (fun kv hkv => h kv (by simp [hkv]))]
      simp

/-- The allow-list scan is a filter: starting from an accumulator disjoint
from the remaining (duplicate-free) operator list, the fold appends exactly
the operators with truthy payload values, in allow-list order, and counts
them. -/
theorem ML2.parse_foldl (data : JValue) (l : List String)
    (acc : List (String × JValue)) (n : Nat)
    (hdis : ∀ op ∈ l, ∀ kv ∈ acc, kv.1 ≠ op) (hnd : l.Nodup) :
    l.foldl (ML2.parseStep data) (acc, n) =
      (acc ++ (l.filter (fun op => (data.getField op).truthy)).map
          (fun op => (op, data.getField op)),
       n + (l.filter (fun op => (data.getField op).truthy)).length) := by
  induction l generalizing acc n with
  | nil => simp
  | cons op rest ih =>
      have hop : ∀ kv ∈ acc, kv.1 ≠ op := hdis op (by simp)
      have hnd2 : rest.Nodup := hnd.of_cons
      have hmem : op ∉ rest := by
        have := List.nodup_cons.mp hnd
        exact this.1
      by_cases ht : (data.getField op).truthy
      · have hstep : ML2.parseStep data (acc, n) op
            = (acc ++ [(op, data.getField op)], n + 1) := by
          simp only [ML2.parseStep, ht, if_true]
          rw [setEntry_not_mem acc op (data.getField op) hop]
        have hdis2 : ∀ op2 ∈ rest, ∀ kv ∈ acc ++ [(op, data.getField op)],
            kv.1 ≠ op2 := by
          intro op2 hop2 kv hkv
          rcases List.mem_append.mp hkv with h | h
          · exact hdis op2 (by simp [hop2]) kv h
          · simp at h
            subst h
            intro hc
            have hco : op = op2 := hc
            exact hmem (hco ▸ hop2)
        rw [List.foldl_cons, hstep, ih (acc ++ [(op, data.getField op)]) (n + 1) hdis2 hnd2]
        simp [List.filter_cons, ht]
        omega
      · have hstep : ML2.parseStep data (acc, n) op = (acc, n) := by
          simp [ML2.parseStep, ht]
        rw [List.foldl_cons, hstep,
          ih acc n (fun op2 hop2 kv hkv => hdis op2 (by simp [hop2]) kv hkv) hnd2]
        simp [List.filter_cons, ht]

/-- C6 (amended): with the extended-operators flag disabled,
`parseUpdateData` returns exactly `{$set: payload}`; with the flag enabled,
exactly the allow-listed operator keys whose payload values are **truthy**
are forwarded, each under its own key (in allow-list order), and when no
allow-listed key has a truthy value — also when such a key is present with
a falsy value — the whole payload is wrapped as `{$set: payload}`. -/
theorem C6_parseUpdateData_sanitization (data : JValue) :
    ML2.parseUpdateData false data = .obj [("$set", data)] ∧
    ML2.parseUpdateData true data =
      (if (ML2.acceptedOperators.filter (fun op => (data.getField op).truthy)).isEmpty
       then .obj [("$set", data)]
       else .obj ((ML2.acceptedOperators.filter
          (fun op => (data.getField op).truthy)).map
          (fun op => (op, data.getField op)))) := by
  constructor
  · rfl
  · unfold ML2.parseUpdateData
    rw [ML2.parse_foldl data ML2.acceptedOperators [] 0 (by simp) (by decide)]
    cases hf : ML2.acceptedOperators.filter (fun op => (data.getField op).truthy) with
    | nil => simp [hf, setEntry]
    | cons a t => simp [hf, setEntry]

/-- Counterexample to C6 as stated: the scan checks truthiness, not
presence.  The allow-listed key `$inc`, present with value `null`, is not
forwarded under its own key (the claim predicts output `{$inc: null}`);
instead the whole payload is wrapped: the output is
`{$set: {$inc: null}}` and carries no `$inc` key at all. -/
theorem C6_present_key_not_forwarded_cex :
    ML2.parseUpdateData true (.obj [("$inc", JValue.null)])
      = .obj [("$set", .obj [("$inc", JValue.null)])] ∧
    (ML2.parseUpdateData true (.obj [("$inc", JValue.null)])).getField "$inc"
      = JValue.undef :=
  ⟨rfl, rfl⟩

/-- C1 fails on the code: the primary `destroyAll` invokes its callback
zero times — under every store outcome — whenever the translated filter
does not carry a truthy `id` entry (only the locator-scoped branch is live,
lines 331-335), and it issues no store request there either; the primary
`create` invokes its callback zero times when the write promise is
rejected, because the `.then` chain has no rejection handler
(lines 141-147). -/
theorem C1_completion_can_be_skipped :
    (∀ oc : PromiseOutcome,
      ML1.destroyAll "Widget" "id" (.obj [("name", .str "a")]) oc = (none, [])) ∧
    (ML1.create "Widget" (.obj [("name", .str "a")])
        (.rejected (.str "socket error"))).calls = [] := by
  constructor
  · intro oc
    cases oc <;> rfl
  · rfl

/-- C2 fails on the primary code: `updateAll` with a filter matching zero
documents (the `all` call reports `[]`) issues no write and never invokes
its callback (lines 409-414: only `if (response[0])` is handled) — it does
not complete with `{count: 0}`.  The execute-based `updateAll`
(lines 1111-1136), by contrast, reports `cb(null, {count: 0})` with
`{multi: true, upsert: false}` when the store matched zero documents. -/
theorem C2_updateAll_zero_match :
    (∀ so : PromiseOutcome,
      ML1.updateAll "Widget" "id" (.obj [("name", .str "zzz")])
        (.obj [("name", .str "b")]) [] so = (none, [])) ∧
    (ML2.updateAll false "Widget" "id" (.obj [("name", .str "zzz")])
        (.obj [("name", .str "b")])
        (.ok (.obj [("result", .obj [("ok", .num 1), ("n", .num 0)])]))).calls
      = [⟨JValue.null, .obj [("count", JValue.num 0)]⟩] ∧
    (ML2.updateAll false "Widget" "id" (.obj [("name", .str "zzz")])
        (.obj [("name", .str "b")])
        (.ok (.obj [("result", .obj [("ok", .num 1), ("n", .num 0)])]))).opts
      = .obj [("multi", .bool true), ("upsert", .bool false)] := by
  refine ⟨?_, rfl, rfl⟩
  intro so
  cases so <;> rfl

/-- C7 fails on the code: `updateOrCreate` throws
`ReferenceError: uri is not defined` on every invocation — the function
computes `var id = self.getIdValue(model, data)` (line 777) but builds its
`findAndModify` selector from the undeclared identifier `uri` (line 785) —
so no lookup, no upsert and no completion ever happens. -/
theorem C7_updateOrCreate_reference_error :
    ML2.updateOrCreate false "Widget" "id"
        (.obj [("id", .str "Widget/a.json"), ("name", .str "x")])
      = .error "ReferenceError: uri is not defined" := rfl

/-- Counterexample to C8 as stated: the primary `updateAttributes`
(lines 383-394) delegates to the full-document `save`; for a locator with
no existing document the write simply creates it, and the completion
carries a `null` error and the locator — not a domain error naming model
and locator, and not "no write". -/
theorem C8_primary_updateAttributes_cex :
    (ML1.updateAttributes "Widget" "id" "Widget/a.json"
        (.obj [("name", .str "x")])
        (.resolved (.obj [("documents",
          .arr [.obj [("uri", .str "Widget/a.json")]])]))).calls
      = [⟨JValue.null, .str "Widget/a.json"⟩] ∧
    (ML1.updateAttributes "Widget" "id" "Widget/a.json"
        (.obj [("name", .str "x")])
        (.resolved (.obj [("documents",
          .arr [.obj [("uri", .str "Widget/a.json")]])]))).req
      = .obj [("uri", .str "Widget/a.json"),
              ("content", .obj [("name", .str "x"), ("id", .str "Widget/a.json")]),
              ("contentType", .str "application/json")] :=
  ⟨rfl, rfl⟩

/-- C8 (amended): the execute-based `updateAttributes` (lines 1076-1102)
behaves as claimed — when no document exists at the locator (the
match-and-modify result carries a `null` value) it completes with the
domain error `'No <model> found for uri <uri>'` naming both model and
locator, and its `findAndModify` request carries empty options (no
upsert, so nothing is written or created); the primary `updateAttributes`
(lines 383-394) instead issues a full-document write at the locator —
creating the document when absent — and completes without error, returning
the acknowledged locator. -/
theorem C8_updateAttributes_missing_document (flag : Bool)
    (model idName uri respUri : String) (data : JValue)
    (kvs : List (String × JValue)) :
    (ML2.updateAttributes flag model idName uri data
        (.ok (.obj [("value", JValue.null)]))).calls
      = [⟨.str ("No " ++ model ++ " found for uri " ++ uri), JValue.null⟩] ∧
    (ML2.updateAttributes flag model idName uri data
        (.ok (.obj [("value", JValue.null)]))).opts = .obj [] ∧
    (ML1.updateAttributes model idName uri (.obj kvs)
        (.resolved (.obj [("documents", .arr [.obj [("uri", .str respUri)]])]))).req
      = .obj [("uri", .str uri), ("content", .obj (setEntry kvs "id" (.str uri))),
              ("contentType", .str "application/json")] ∧
    (ML1.updateAttributes model idName uri (.obj kvs)
        (.resolved (.obj [("documents", .arr [.obj [("uri", .str respUri)]])]))).calls
      = [⟨JValue.null, .str respUri⟩] := by
  refine ⟨rfl, rfl, ?_, ?_⟩
  · simp only [ML1.updateAttributes, ML1.save, setField]
    rw [getField_setEntry]
  · have hx : (((JValue.obj [("documents",
        JValue.arr [JValue.obj [("uri", JValue.str respUri)]])]).getField
        "documents").getField "0").getField "uri" = JValue.str respUri := rfl
    simp only [ML1.updateAttributes, ML1.save, setField, hx]
    rw [getField_setEntry]
